import Mathlib

/-!
Verification of the uber-cheats deal-discovery pipeline (`uber_deals.py`).

This file shallowly embeds the data model and the operations of the
scraper: the URL fingerprinter (`get_url_hash`), the deal store
(`setup_database` schema, `save_deal_to_db`, `get_existing_deals`), the
candidate segmenter and extraction client (`extract_deals_with_llm`,
`process_menu_item`), the validator (`validate_deal_info`), and the
orchestrator (`get_restaurant_deals`, `process_store_card`,
`extract_deal_details`), together with the listing-page scroll loop.

Modelling conventions:
* Python runtime values flowing through deal dictionaries and JSON are
  embedded as `PVal`; lists and dicts are inlined cons cells so every
  operation is structurally recursive and kernel-evaluable.
* External collaborators (the OpenAI endpoint, the HTTP fetcher and the
  already-rendered listing page, `json.loads`) are parameters of the
  pipeline, collected in `World`; the code of the repository itself is
  embedded directly.
* Machine words in the SHA-256 fingerprinter are `Nat` reduced mod 2^32.
* Exceptions are `Except`/`Option` values; a caught-and-logged exception
  is a normal return, mirroring the `try/except: print` sites of the code.
* SQLite's `deals` table is a `List Row`; `INSERT OR REPLACE` under the
  `UNIQUE(url_hash, item_name)` constraint deletes the conflicting row
  and appends the new one. `CURRENT_TIMESTAMP` is an abstract `Nat`
  clock threaded through the pipeline.
-/

namespace UberCheats

/-! ## Python values

`PVal` represents the Python/JSON values that flow through `deal_info`
dictionaries: `str`, `float`/`int` (collapsed into `ℚ`), `bool`, `None`,
lists and dicts. List and dict spines are inlined constructors
(`lnil`/`lcons`, `dnil`/`dcons`) rather than nested `List`s so that all
recursions below are structural. -/

inductive PVal : Type where
  | str (s : String)
  | num (q : ℚ)
  | boolv (b : Bool)
  | pyNone
  | lnil
  | lcons (hd tl : PVal)
  | dnil
  | dcons (key : String) (val tl : PVal)
deriving DecidableEq

/-- Python truthiness (`bool(v)`): empty strings, zero, `False`, `None`
and empty containers are falsy. -/
def PVal.truthy : PVal → Bool
  | .str s => s ≠ ""
  | .num q => q ≠ 0
  | .boolv b => b
  | .pyNone => false
  | .lnil => false
  | .lcons _ _ => true
  | .dnil => false
  | .dcons _ _ _ => true

/-- Embed a `List PVal` as a Python list value. -/
def listToPVal : List PVal → PVal
  | [] => .lnil
  | x :: xs => .lcons x (listToPVal xs)

/-- Elements of a Python list value; `none` on a non-list. -/
def pvalItems : PVal → Option (List PVal)
  | .lnil => some []
  | .lcons x t => (pvalItems t).map (x :: ·)
  | _ => none

/-- Whether a `PVal` is a Python dict. -/
def isDictP : PVal → Bool
  | .dnil => true
  | .dcons _ _ _ => true
  | _ => false

/-- Dict lookup (`d[k]` / successful `d.get(k)`), first entry wins. -/
def dictLookup : PVal → String → Option PVal
  | .dcons k v t, key => if k = key then some v else dictLookup t key
  | _, _ => none

/-- Python `d.get(k, default)` on a dict. -/
def pyGetD (d : PVal) (k : String) (dflt : PVal) : PVal :=
  (dictLookup d k).getD dflt

/-- Python `len(v)` for the types that support it; `none` models the
`TypeError` raised by `len` on numbers, booleans and `None`. -/
def pyLen : PVal → Option Nat
  | .str s => some s.length
  | .lnil => some 0
  | .lcons _ t => (pyLen t).map (· + 1)
  | .dnil => some 0
  | .dcons _ _ t => (pyLen t).map (· + 1)
  | _ => none

/-- Python iteration for `list.extend(v)`: lists yield elements, strings
yield one-character strings, dicts yield their keys; other values raise
`TypeError` (`none`). -/
def pyIter : PVal → Option (List PVal)
  | .lnil => some []
  | .lcons x t => (pyIter t).map (x :: ·)
  | .str s => some (s.data.map (fun c => .str (String.mk [c])))
  | .dnil => some []
  | .dcons k _ t => (pyIter t).map (PVal.str k :: ·)
  | _ => none

/-- Python `base.copy(); base.update(upd)` for dict `upd`, modelled as
prepending the entries of `upd` (so lookups see `upd` first); `none`
models the exception `update` raises on a non-dict argument. -/
def dictUpdateP (base upd : PVal) : Option PVal :=
  match upd with
  | .dnil => some base
  | .dcons k v t => (dictUpdateP base t).map (PVal.dcons k v)
  | _ => none

/-- The string payload of a `PVal`; `none` models the `AttributeError`
raised when string methods (such as `.encode()`) hit a non-string. -/
def pvalAsStr : PVal → Option String
  | .str s => some s
  | _ => none

/-! ## Python string helpers: `strip`, `float()` -/

/-- Characters removed by Python's `str.strip()`. -/
def isPySpace (c : Char) : Bool :=
  c = ' ' ∨ c = '\t' ∨ c = '\n' ∨ c = '\r' ∨ c = '\x0b' ∨ c = '\x0c'

/-- Python `str.strip()` on a character list. -/
def pyStripL (cs : List Char) : List Char :=
  ((cs.dropWhile isPySpace).reverse.dropWhile isPySpace).reverse

/-- Python `str.strip()`. -/
def pyStrip (s : String) : String := String.mk (pyStripL s.data)

/-- Numeric value of a nonempty digit string. -/
def digitsToNat (cs : List Char) : Nat :=
  cs.foldl (fun a c => a * 10 + (c.toNat - 48)) 0

/-- A nonempty all-digit run, or `none`. -/
def parseDigitsNat (cs : List Char) : Option Nat :=
  if cs ≠ [] ∧ cs.all Char.isDigit then some (digitsToNat cs) else none

/-- Exponent part after `e`/`E`: optional sign then digits. -/
def parseExpPart : List Char → Option Int
  | '+' :: ds => (parseDigitsNat ds).map Int.ofNat
  | '-' :: ds => (parseDigitsNat ds).map (fun n => -(n : Int))
  | ds => (parseDigitsNat ds).map Int.ofNat

/-- Mantissa of a decimal literal: digits, optionally a dot with more
digits; at least one digit overall. -/
def parseMantissa (cs : List Char) : Option ℚ :=
  let ip := cs.takeWhile Char.isDigit
  match cs.dropWhile Char.isDigit with
  | [] => if ip = [] then none else some ((digitsToNat ip : ℚ))
  | '.' :: rest2 =>
    let fp := rest2.takeWhile Char.isDigit
    if ip = [] ∧ fp = [] then none
    else if rest2.dropWhile Char.isDigit = [] then
      some ((digitsToNat ip : ℚ) + (digitsToNat fp : ℚ) / 10 ^ fp.length)
    else none
  | _ => none

/-- Mantissa with optional exponent. -/
def parseUnsignedFloat (cs : List Char) : Option ℚ :=
  match cs.findIdx? (fun c => c = 'e' ∨ c = 'E') with
  | none => parseMantissa cs
  | some i =>
    match parseMantissa (cs.take i), parseExpPart (cs.drop (i + 1)) with
    | some q, some ex => some (q * (10 : ℚ) ^ ex)
    | _, _ => none

/-- Python's `float(str)` on its decimal forms: surrounding whitespace is
stripped, then an optional sign, digits with an optional fractional part
and an optional exponent. The `inf`/`nan`/underscore forms of this
external builtin are not exercised by the repository and are modelled as
conversion failures. -/
def floatOfString (s : String) : Option ℚ :=
  match pyStripL s.data with
  | '+' :: cs => parseUnsignedFloat cs
  | '-' :: cs => (parseUnsignedFloat cs).map Neg.neg
  | cs => parseUnsignedFloat cs

/-- Python's `float(v)`: numbers pass through, booleans coerce to 0/1,
strings are parsed, everything else raises (`none` models the
`ValueError`/`TypeError`). -/
def pyFloat : PVal → Option ℚ
  | .num q => some q
  | .boolv b => some (if b then 1 else 0)
  | .str s => floatOfString s
  | _ => none

/-! ## Substring search and Python `str.split`

Python's `in`, `find` and `split(sep)` on strings, over character
lists. `pySplit` is Python's `s.split(sep)` for a nonempty separator:
it cuts at each non-overlapping occurrence scanning left to right. -/

/-- Whether `sep` is an initial segment of `s`. -/
def startsWithL : List Char → List Char → Bool
  | [], _ => true
  | _ :: _, [] => false
  | a :: as, b :: bs => a = b && startsWithL as bs

/-- Index of the leftmost occurrence of `sep` in `s` (Python `s.find(sep)`
when it succeeds); `none` when `sep not in s`. -/
def findSub (sep : List Char) : List Char → Option Nat
  | [] => if startsWithL sep [] then some 0 else none
  | c :: t => if startsWithL sep (c :: t) then some 0 else (findSub sep t).map (· + 1)

/-- Python `sep in s` at the character level: an occurrence of `sep`
starts at some position. (Tail-recursive formulation; agrees with
`findSub` by `containsSubAux_eq_isSome` below.) -/
def containsSubAux (sep : List Char) : List Char → Bool
  | [] => startsWithL sep []
  | c :: t => startsWithL sep (c :: t) || containsSubAux sep t

/-- Python `sep in s` on strings. -/
def containsSub (sep s : String) : Bool := containsSubAux sep.data s.data

/-- The prefix of `s` up to the leftmost occurrence of `sep` (all of `s`
when `sep` does not occur). -/
def takeUntilSub (sep s : List Char) : List Char :=
  match findSub sep s with
  | none => s
  | some i => s.take i

theorem startsWithL_length {sep s : List Char} (h : startsWithL sep s = true) :
    sep.length ≤ s.length := by
  induction sep generalizing s with
  | nil => simp
  | cons a as ih =>
    cases s with
    | nil => simp [startsWithL] at h
    | cons b bs =>
      simp only [startsWithL, Bool.and_eq_true] at h
      simpa [List.length_cons] using Nat.succ_le_succ (ih h.2)

theorem findSub_le {sep s : List Char} {i : Nat} (h : findSub sep s = some i) :
    i + sep.length ≤ s.length := by
  induction s generalizing i with
  | nil =>
    simp only [findSub] at h
    split at h
    · rename_i hs
      cases h
      simpa using startsWithL_length hs
    · cases h
  | cons c t ih =>
    simp only [findSub] at h
    split at h
    · rename_i hs
      cases h
      simpa using startsWithL_length hs
    · match h' : findSub sep t with
      | none => rw [h'] at h; cases h
      | some j =>
        rw [h'] at h
        simp only [Option.map_some'] at h
        cases h
        have := ih h'
        simp only [List.length_cons]
        omega

theorem findSub_some_pos_len {sep s : List Char} {i : Nat}
    (hsep : 0 < sep.length) (h : findSub sep s = some i) : 0 < s.length := by
  have := findSub_le h
  omega

/-- Python `s.split(sep)` for nonempty `sep`: cut at the leftmost
occurrence and continue after it. -/
def pySplit (sep : List Char) (hsep : 0 < sep.length) (s : List Char) : List (List Char) :=
  match h : findSub sep s with
  | none => [s]
  | some i => s.take i :: pySplit sep hsep (s.drop (i + sep.length))
termination_by s.length
decreasing_by
  simp only [List.length_drop]
  have h1 := findSub_le h
  have h2 := findSub_some_pos_len hsep h
  omega

/-! ## Fingerprinter: `get_url_hash`

`hashlib.sha256(url.encode()).hexdigest()[:16]`. SHA-256 is implemented
over byte lists (`Nat` values below 256) with 32-bit words as `Nat`
reduced mod 2^32; `url.encode()` is UTF-8. -/

/-- Reduce to a 32-bit word. -/
def w32 (n : Nat) : Nat := n % 4294967296

/-- Right-rotate a 32-bit word by `n`. -/
def rotr (x n : Nat) : Nat := x / 2 ^ n + x % 2 ^ n * 2 ^ (32 - n)

def smallSigma0 (x : Nat) : Nat := rotr x 7 ^^^ rotr x 18 ^^^ x / 2 ^ 3

def smallSigma1 (x : Nat) : Nat := rotr x 17 ^^^ rotr x 19 ^^^ x / 2 ^ 10

def bigSigma0 (x : Nat) : Nat := rotr x 2 ^^^ rotr x 13 ^^^ rotr x 22

def bigSigma1 (x : Nat) : Nat := rotr x 6 ^^^ rotr x 11 ^^^ rotr x 25

def chV (x y z : Nat) : Nat := (x &&& y) ^^^ ((x ^^^ 4294967295) &&& z)

def majV (x y z : Nat) : Nat := (x &&& y) ^^^ (x &&& z) ^^^ (y &&& z)

/-- The 64 SHA-256 round constants. -/
def sha256K : List Nat :=
  [1116352408, 1899447441, 3049323471, 3921009573, 961987163, 1508970993,
   2453635748, 2870763221, 3624381080, 310598401, 607225278, 1426881987,
   1925078388, 2162078206, 2614888103, 3248222580, 3835390401, 4022224774,
   264347078, 604807628, 770255983, 1249150122, 1555081692, 1996064986,
   2554220882, 2821834349, 2952996808, 3210313671, 3336571891, 3584528711,
   113926993, 338241895, 666307205, 773529912, 1294757372, 1396182291,
   1695183700, 1986661051, 2177026350, 2456956037, 2730485921, 2820302411,
   3259730800, 3345764771, 3516065817, 3600352804, 4094571909, 275423344,
   430227734, 506948616, 659060556, 883997877, 958139571, 1322822218,
   1537002063, 1747873779, 1955562222, 2024104815, 2227730452, 2361852424,
   2428436474, 2756734187, 3204031479, 3329325298]

/-- The eight 32-bit state words of SHA-256. -/
structure Hash8 where
  a : Nat
  b : Nat
  c : Nat
  d : Nat
  e : Nat
  f : Nat
  g : Nat
  h : Nat
deriving DecidableEq

def sha256Init : Hash8 :=
  ⟨1779033703, 3144134277, 1013904242, 2773480762, 1359893119, 2600822924, 528734635, 1541459225⟩

/-- SHA-256 padding: a `0x80` byte, zeros to 56 mod 64, then the bit
length as 8 big-endian bytes. -/
def padMessage (msg : List Nat) : List Nat :=
  let L := msg.length
  msg ++ [128] ++ List.replicate ((119 - L % 64) % 64) 0 ++
    [56, 48, 40, 32, 24, 16, 8, 0].map (fun s => (8 * L) / 2 ^ s % 256)

/-- Cut a byte list into 64-byte blocks (fuel-driven so that it is
structurally recursive; the fuel `l.length` always suffices). -/
def toChunksAux : Nat → List Nat → List (List Nat)
  | 0, _ => []
  | _, [] => []
  | fuel + 1, x :: xs => ((x :: xs).take 64) :: toChunksAux fuel ((x :: xs).drop 64)

def toChunks (l : List Nat) : List (List Nat) := toChunksAux l.length l

/-- The 16 big-endian message words of one 64-byte block. -/
def chunkWords (chunk : List Nat) : List Nat :=
  (List.range 16).map (fun i =>
    chunk.getD (4 * i) 0 * 16777216 + chunk.getD (4 * i + 1) 0 * 65536 +
    chunk.getD (4 * i + 2) 0 * 256 + chunk.getD (4 * i + 3) 0)

/-- Extend 16 message words to the 64-word schedule. -/
def extendWords (ws : List Nat) : List Nat :=
  (List.range 48).foldl (fun acc _ =>
    acc ++ [w32 (smallSigma1 (acc.getD (acc.length - 2) 0) + acc.getD (acc.length - 7) 0 +
                 smallSigma0 (acc.getD (acc.length - 15) 0) + acc.getD (acc.length - 16) 0)]) ws

/-- One SHA-256 compression round over a 64-byte block. -/
def compressChunk (st : Hash8) (chunk : List Nat) : Hash8 :=
  let ws := extendWords (chunkWords chunk)
  let t := (List.range 64).foldl (fun (s : Hash8) i =>
    let t1 := w32 (s.h + bigSigma1 s.e + chV s.e s.f s.g + sha256K.getD i 0 + ws.getD i 0)
    let t2 := w32 (bigSigma0 s.a + majV s.a s.b s.c)
    ⟨w32 (t1 + t2), s.a, s.b, s.c, w32 (s.d + t1), s.e, s.f, s.g⟩) st
  ⟨w32 (st.a + t.a), w32 (st.b + t.b), w32 (st.c + t.c), w32 (st.d + t.d),
   w32 (st.e + t.e), w32 (st.f + t.f), w32 (st.g + t.g), w32 (st.h + t.h)⟩

/-- The eight digest words of a byte message. -/
def sha256Words (msg : List Nat) : List Nat :=
  let fin := (toChunks (padMessage msg)).foldl compressChunk sha256Init
  [fin.a, fin.b, fin.c, fin.d, fin.e, fin.f, fin.g, fin.h]

/-- Lower-case hex digit. -/
def hexDigitChar (n : Nat) : Char := if n < 10 then Char.ofNat (48 + n) else Char.ofNat (87 + n)

/-- The eight hex characters of one 32-bit word (`"%08x"`). -/
def hex8 (w : Nat) : List Char :=
  [hexDigitChar (w / 16 ^ 7 % 16), hexDigitChar (w / 16 ^ 6 % 16), hexDigitChar (w / 16 ^ 5 % 16),
   hexDigitChar (w / 16 ^ 4 % 16), hexDigitChar (w / 16 ^ 3 % 16), hexDigitChar (w / 16 ^ 2 % 16),
   hexDigitChar (w / 16 % 16), hexDigitChar (w % 16)]

/-- UTF-8 bytes of one scalar value (`str.encode()` per character). -/
def utf8EncodeChar (c : Char) : List Nat :=
  let n := c.toNat
  if n < 128 then [n]
  else if n < 2048 then [192 + n / 64, 128 + n % 64]
  else if n < 65536 then [224 + n / 4096, 128 + n / 64 % 64, 128 + n % 64]
  else [240 + n / 262144, 128 + n / 4096 % 64, 128 + n / 64 % 64, 128 + n % 64]

/-- Python `url.encode()`. -/
def utf8Encode (s : String) : List Nat := s.data.flatMap utf8EncodeChar

/-- Embedding of `UberEatsDeals.get_url_hash`:
`hashlib.sha256(url.encode()).hexdigest()[:16]`. -/
def get_url_hash (url : String) : String :=
  String.mk (((sha256Words (utf8Encode url)).flatMap hex8).take 16)

/-! ## Deal store

`setup_database` creates table `deals(id, url_hash, restaurant,
item_name, price, description, promotion_type, delivery_fee,
rating_and_reviews, delivery_time, url, timestamp, UNIQUE(url_hash,
item_name))`. A table state is a `List Row` in rowid order; TEXT columns
hold whatever value was bound (`PVal`), `price REAL` is `ℚ`, and the
`timestamp DATETIME DEFAULT CURRENT_TIMESTAMP` column is an abstract
`Nat` write-clock. -/

structure Row where
  url_hash : String
  restaurant : PVal
  item_name : PVal
  price : ℚ
  description : PVal
  promotion_type : PVal
  delivery_fee : PVal
  rating_and_reviews : PVal
  delivery_time : PVal
  url : PVal
  timestamp : Nat
deriving DecidableEq

/-- The row `save_deal_to_db` binds for a `deal_info` dict at write time
`now`, when no exception interrupts it: `url_hash` is
`get_url_hash(deal_info.get('url', ''))` (an `AttributeError` on a
non-string url aborts the write), the price is
`float(deal_info.get('price', 0.0))` (a `ValueError`/`TypeError` aborts
the write), and the remaining columns take the raw `.get(..., '')`
values. -/
def saveRowOf (deal_info : PVal) (now : Nat) : Option Row :=
  if isDictP deal_info then
    match pvalAsStr (pyGetD deal_info "url" (.str "")) with
    | none => none
    | some urlStr =>
      match pyFloat (pyGetD deal_info "price" (.num 0)) with
      | none => none
      | some p => some
        { url_hash := get_url_hash urlStr
          restaurant := pyGetD deal_info "restaurant" (.str "")
          item_name := pyGetD deal_info "name" (.str "")
          price := p
          description := pyGetD deal_info "description" (.str "")
          promotion_type := pyGetD deal_info "promotion" (.str "")
          delivery_fee := pyGetD deal_info "delivery_fee" (.str "")
          rating_and_reviews := pyGetD deal_info "rating_and_reviews" (.str "")
          delivery_time := pyGetD deal_info "delivery_time" (.str "")
          url := .str urlStr
          timestamp := now }
  else none

/-- Embedding of `UberEatsDeals.save_deal_to_db`: `INSERT OR REPLACE` under
`UNIQUE(url_hash, item_name)` deletes any row with the same key and
appends the new row with a fresh `CURRENT_TIMESTAMP`; any exception is
caught and logged, leaving the table unchanged. -/
def save_deal_to_db (db : List Row) (deal_info : PVal) (now : Nat) : List Row :=
  match saveRowOf deal_info now with
  | none => db
  | some row =>
    db.filter (fun r => ¬(r.url_hash = row.url_hash ∧ r.item_name = row.item_name)) ++ [row]

/-- Insert into a list kept in decreasing-timestamp order. -/
def insertByTsDesc (r : Row) : List Row → List Row
  | [] => [r]
  | x :: xs => if x.timestamp < r.timestamp then r :: x :: xs else x :: insertByTsDesc r xs

/-- The `ORDER BY timestamp DESC` step of the lookup. -/
def sortByTsDesc : List Row → List Row
  | [] => []
  | x :: xs => insertByTsDesc x (sortByTsDesc xs)

/-- The dict `get_existing_deals` builds from one selected row. -/
def rowToDict (r : Row) : PVal :=
  .dcons "restaurant" r.restaurant (.dcons "name" r.item_name (.dcons "price" (.num r.price)
    (.dcons "description" r.description (.dcons "promotion" r.promotion_type
      (.dcons "delivery_fee" r.delivery_fee (.dcons "rating_and_reviews" r.rating_and_reviews
        (.dcons "delivery_time" r.delivery_time (.dcons "url" r.url
          (.dcons "timestamp" (.num r.timestamp) .dnil)))))))))

/-- Embedding of `UberEatsDeals.get_existing_deals`: `SELECT ... FROM deals WHERE
url_hash = ? ORDER BY timestamp DESC`, converted to a list of dicts
(empty when there is no row for the fingerprint). -/
def get_existing_deals (db : List Row) (url : String) : List PVal :=
  let url_hash := get_url_hash url
  ((sortByTsDesc (db.filter (fun r => r.url_hash = url_hash))).map rowToDict)

/-! ## Parsed HTML documents

`extract_deals_with_llm` receives page text and parses it with
BeautifulSoup's lenient parser, which never raises on malformed or
incomplete markup; the model therefore works on the parsed tree. An
`HNode` is either an element, a text node, or a child-chain cell
(`hnil`/`hcons`), again inlined so that traversals are structurally
recursive. The whole parsed document (BeautifulSoup's soup object,
`str` of which is the whole page) is the element with tag
`"[document]"`. -/

inductive HNode : Type where
  | elem (tag : String) (attrs : List (String × String)) (children : HNode)
  | text (s : String)
  | hnil
  | hcons (hd tl : HNode)
deriving DecidableEq

/-- The promotion-marker test of
`soup.find_all('img', src=lambda x: x and 'promo-tag-3x.png' in x)`:
the `src` attribute exists, is truthy, and contains the fixed
image-asset signature. -/
def hasPromoSrc (attrs : List (String × String)) : Bool :=
  match attrs.find? (fun p => p.1 = "src") with
  | some kv => kv.2 ≠ "" && containsSub "promo-tag-3x.png" kv.2
  | none => false

/-- Document-order collection of the promo-marker `img` tags, each with
its ancestor chain (nearest parent first, the soup node last). -/
def findPromoAux : HNode → List HNode → List (List HNode)
  | .elem tag attrs children, anc =>
    (if tag = "img" && hasPromoSrc attrs then [HNode.elem tag attrs children :: anc] else []) ++
      findPromoAux children (HNode.elem tag attrs children :: anc)
  | .text _, _ => []
  | .hnil, _ => []
  | .hcons hd tl, anc => findPromoAux hd anc ++ findPromoAux tl anc

/-- The promo-tag anchors of a parsed document: each entry is the `img`
marker followed by its ancestors. -/
def findPromoTags (soup : HNode) : List (List HNode) := findPromoAux soup []

/-- The ancestor walk of the segmenter: starting from the marker, step
to the parent nine times, stopping early at the soup (whose parent is
`None`). `chain` is the marker followed by its ancestors. -/
def walkUp (chain : List HNode) : HNode :=
  chain.getD 9 (chain.getLastD (.text ""))

/-- Attribute serialization used by `serializeNode`. -/
def serializeAttrsStr : List (String × String) → String
  | [] => ""
  | (k, v) :: rest => " " ++ k ++ "=" ++ "\"" ++ v ++ "\"" ++ serializeAttrsStr rest

/-- Serialization `str(tag)` of a parsed subtree; the `"[document]"`
soup node prints as its contents. -/
def serializeNode : HNode → String
  | .text s => s
  | .hnil => ""
  | .hcons hd tl => serializeNode hd ++ serializeNode tl
  | .elem tag attrs children =>
    if tag = "[document]" then serializeNode children
    else "<" ++ tag ++ serializeAttrsStr attrs ++ ">" ++ serializeNode children ++ "</" ++ tag ++ ">"

/-- The menu-item fragments of one page: for each promo marker, the
serialized HTML of its ninth-level ancestor block. -/
def menuItemsOf (soup : HNode) : List String :=
  (findPromoTags soup).map (fun chain => serializeNode (walkUp chain))

/-! ## Extraction client -/

/-- The fixed extraction prompt `DEAL_EXTRACTION_PROMPT` the user message
prepends to each fragment (braces of the JSON example written as their
character codes). -/
def DEAL_EXTRACTION_PROMPT : String :=
  "\nExtract deal information from the following HTML snippet of an Uber Eats restaurant page.\nFocus on items that have promotions like \"Buy 1, Get 1 Free\" or \"Top Offer\".\n\nFor each deal found, provide:\n1. Item name\n2. Price as a float number (remove the € symbol and convert to float, e.g., \"12,99 €\" should become 12.99)\n3. Description (if available)\n4. Promotion type (e.g., \"Buy 1, Get 1 Free\")\n\nReturn the information in this JSON format:\n\x7b\n    \"deals\": [\n        \x7b\n            \"name\": \"Item name\",\n            \"price\": 12.99,\n            \"description\": \"Item description\",\n            \"promotion\": \"Promotion type\"\n        \x7d\n    ]\n\x7d\n\nImportant formatting rules:\n- Price must be a float number, not a string\n- Convert comma-separated prices to dot-separated (e.g., \"12,99\" → 12.99)\n- Remove any currency symbols (€, EUR, etc.)\n- If a price range is given (e.g., \"12,99 € - 15,99 €\"), use the lower price\n- If no price is found, use 0.0\n\nIf no deals are found, return an empty deals array.\nHTML:\n"

/-- The markdown fence marker the response unwrapping looks for. -/
def jsonFenceChars : List Char := "```json".data

/-- A bare code fence. -/
def fenceChars : List Char := "```".data

/-- The unwrapping step of `process_menu_item`:
`if '```json' in content: content = content.split('```json')[1].split('```')[0]`. -/
def unwrapContent (content : List Char) : List Char :=
  if containsSubAux jsonFenceChars content then
    ((pySplit fenceChars (by decide)
        ((pySplit jsonFenceChars (by decide) content).getD 1 [])).getD 0 [])
  else content

/-- The unwrapping rule as the spec words it, for comparison with
`unwrapContent`: "if a ```json fence marker is present, only the content
between the first such fence and its closing fence is parsed; otherwise
the whole trimmed response is parsed" — the closing fence being the
first ``` after the opening marker (the whole remainder when no closing
fence exists). -/
def specFenceUnwrap (content : List Char) : List Char :=
  match findSub jsonFenceChars content with
  | none => content
  | some i => takeUntilSub fenceChars (content.drop (i + jsonFenceChars.length))

/-- Embedding of `process_menu_item` from `extract_deals_with_llm`: call the model on
the fixed prompt plus the fragment (an API error becomes an exception),
unwrap a markdown fence if present, `json.loads` the stripped content
(`decode`; failure becomes an exception), then return the `deals` value
when it is present and truthy — `len()` is applied to it on the way —
and an empty list otherwise. Every failure is re-raised to the caller
(`Except.error`). -/
def process_menu_item (respond : String → Except String String)
    (decode : String → Option PVal) (item : String) : Except String PVal :=
  match respond (DEAL_EXTRACTION_PROMPT ++ item) with
  | .error apiError => .error ("OpenAI API error: " ++ apiError)
  | .ok content =>
    let unwrapped := unwrapContent content.data
    match decode (String.mk (pyStripL unwrapped)) with
    | none => .error "Failed to parse OpenAI response as JSON"
    | some result =>
      if isDictP result then
        match dictLookup result "deals" with
        | some v =>
          if v.truthy then
            match pyLen v with
            | some _ => .ok v
            | none => .error "TypeError: object of this type has no len()"
          else .ok .lnil
        | none => .ok .lnil
      else .error "AttributeError: object has no attribute get"

/-- The result-collection loop of `extract_deals_with_llm` after
`asyncio.gather(..., return_exceptions=True)`: walk the per-fragment
results in order, re-raising the first exception encountered and
otherwise extending `all_deals` with each result. -/
def collectResultsAux (acc : List PVal) : List (Except String PVal) → Except String (List PVal)
  | [] => .ok acc
  | .error e :: _ => .error e
  | .ok v :: rest =>
    match pyIter v with
    | none => .error "TypeError: object is not iterable"
    | some xs => collectResultsAux (acc ++ xs) rest

def collectResults (results : List (Except String PVal)) : Except String (List PVal) :=
  collectResultsAux [] results

/-- Embedding of `UberEatsDeals.extract_deals_with_llm` on a parsed page: find the
promo markers (none ⇒ return `[]` with no model call), build the
menu-item fragments by the nine-level ancestor walk, process each
fragment (one model call per fragment), and collect the results,
re-raising the first per-fragment exception. The second component
counts the extraction-model calls made. -/
def extract_deals_with_llm (respond : String → Except String String)
    (decode : String → Option PVal) (soup : HNode) : Except String (List PVal) × Nat :=
  let promo_tags := findPromoTags soup
  if promo_tags.isEmpty then (.ok [], 0)
  else
    let menu_items := menuItemsOf soup
    if menu_items.isEmpty then (.ok [], 0)
    else
      (collectResults (menu_items.map (process_menu_item respond decode)), menu_items.length)

/-! ## Pipeline orchestrator

`get_restaurant_deals` and its per-card worker `process_store_card`.
The external collaborators — the rendered listing page with its store
cards, the detail-page HTTP fetcher, the model endpoint and
`json.loads` — are collected in a `World`. Store-card units of work are
issued with `asyncio.gather`, which preserves task order and reports
each card's result list in order; database writes are serialized behind
`db_lock`, so the gather is modelled as the in-order fold below. -/

/-- The observable fields of one store-card element. `h3Text` is the
`h3` text (`None` models `NoSuchElementException`); `ariaLabel` the
`aria-label` fallback; `href` the link attribute; `promoText` the
promotion badge; `feeTexts`, `ratingTitles`, `reviewsTitles`,
`timeTexts` the `find_elements` result texts used for the defensive
metadata lookups. -/
structure Card where
  h3Text : Option String
  ariaLabel : Option String
  href : Option String
  promoText : Option String
  feeTexts : List String
  ratingTitles : List String
  reviewsTitles : List String
  timeTexts : List String
deriving DecidableEq

/-- The external collaborators of one discovery run: `loadPage` is
`driver.get` on the listing URL (an exception models a page that cannot
be loaded or rendered), `pageCards` the store cards enumerated after
scrolling, `fetchDetail` the detail-page fetch returning an HTTP status
and the parsed page, `respond` the extraction model on the user-message
content, `decode` is `json.loads`. -/
structure World where
  loadPage : Except String Unit
  pageCards : List Card
  fetchDetail : String → Except String (Nat × HNode)
  respond : String → Except String String
  decode : String → Option PVal

/-- The quickView rewrite of a card href in `process_store_card`:
`link + '&mod=quickView'` when the href already has a query string,
otherwise `link + '?mod=quickView'`. -/
def addQuickView (link : String) : String :=
  if containsSub "?" link then link ++ "&mod=quickView" else link ++ "?mod=quickView"

/-- The `basic_info` dict of one card for restaurant name `nm`: sentinel
defaults, then each defensive lookup that succeeds replaces its
sentinel; the promotion entry is added after the four base entries. -/
def basic_info_of (c : Card) (nm : String) : PVal :=
  .dcons "restaurant" (.str nm)
    (.dcons "delivery_fee"
      (.str (match c.feeTexts with | [] => "Not specified" | f :: _ => pyStrip f))
      (.dcons "rating_and_reviews"
        (.str (match c.ratingTitles, c.reviewsTitles with
          | r :: _, v :: _ => r ++ " (" ++ v ++ ")"
          | _, _ => ""))
        (.dcons "delivery_time"
          (.str (match c.timeTexts.getLast? with
            | some t => pyStrip t
            | none => "Not specified"))
          (.dcons "promotion"
            (.str (match c.promoText with
              | some p => pyStrip p
              | none => "No promotion displayed"))
            .dnil))))

/-- Embedding of `UberEatsDeals.extract_deal_details`: fetch the detail page (one
fetch regardless of outcome), on HTTP 200 run the extraction over the
parsed page; any exception — transport error, non-200 status, or a
re-raised extraction failure — is caught and the deals gathered so far
(always `[]`, since `deals` is only assigned by the extraction result)
are returned. Result: `(deals, detail fetches, model calls)`. -/
def extract_deal_details (w : World) (link : String) : List PVal × Nat × Nat :=
  match w.fetchDetail link with
  | .error _ => ([], 1, 0)
  | .ok (status, soup) =>
    if status = 200 then
      match extract_deals_with_llm w.respond w.decode soup with
      | (.ok ds, n) => (ds, 1, n)
      | (.error _, n) => ([], 1, n)
    else ([], 1, 0)

/-- The per-deal loop of `process_store_card`: for each extracted deal,
merge it over `basic_info`, set `deal_info['url'] = link`, persist the
row, and append the dict to the card's result list. A deal that is not
a dict makes `dict.update` raise, aborting the loop (the card returns
`[]`), but the rows already persisted stay persisted. Returns the
result list (`none` when the loop aborted), the database, and the
clock. -/
def addDealsAux (basic : PVal) (link : String) (db : List Row) (now : Nat) :
    List PVal → Option (List PVal) × List Row × Nat
  | [] => (some [], db, now)
  | d :: ds =>
    match dictUpdateP basic d with
    | none => (none, db, now)
    | some merged =>
      let info := PVal.dcons "url" (.str link) merged
      let db2 := save_deal_to_db db info now
      match addDealsAux basic link db2 (now + 1) ds with
      | (none, db3, n3) => (none, db3, n3)
      | (some rest, db3, n3) => (some (info :: rest), db3, n3)

/-- The result of one store-card worker. -/
structure CardOut where
  deals : List PVal
  db : List Row
  fetches : Nat
  llmCalls : Nat
  now : Nat
deriving DecidableEq

/-- Embedding of `process_store_card`: resolve the restaurant name (`h3` text, else
`aria-label`; a falsy name skips the card), resolve the href (a missing
or falsy href skips the card), rewrite it with `mod=quickView`, build
`basic_info`, extract the detail-page deals, and persist/collect each
one. Any exception inside the worker is caught and the card contributes
`[]`. -/
def process_store_card (w : World) (db : List Row) (now : Nat) (c : Card) : CardOut :=
  let nameOpt := match c.h3Text with
    | some t => some (pyStrip t)
    | none => c.ariaLabel
  match nameOpt with
  | none => ⟨[], db, 0, 0, now⟩
  | some nm =>
    if nm = "" then ⟨[], db, 0, 0, now⟩
    else
      match c.href with
      | none => ⟨[], db, 0, 0, now⟩
      | some href =>
        if href = "" then ⟨[], db, 0, 0, now⟩
        else
          let link := addQuickView href
          let basic := basic_info_of c nm
          match extract_deal_details w link with
          | (specific, f, l) =>
            match addDealsAux basic link db now specific with
            | (none, db2, n2) => ⟨[], db2, f, l, n2⟩
            | (some infos, db2, n2) => ⟨infos, db2, f, l, n2⟩

/-- The `asyncio.gather` over all store cards: per-card results in task
order, database writes serialized. Returns the concatenated deals, the
final table, the total detail fetches and model calls, and the clock. -/
def processAllCards (w : World) : List Card → List Row → Nat → List PVal × List Row × Nat × Nat × Nat
  | [], db, now => ([], db, 0, 0, now)
  | c :: cs, db, now =>
    let o := process_store_card w db now c
    match processAllCards w cs o.db o.now with
    | (ds, db2, f2, l2, n2) => (o.deals ++ ds, db2, o.fetches + f2, o.llmCalls + l2, n2)

/-- The observable outcome of `get_restaurant_deals`: the final
`self.deals`, the table, and the number of detail-page fetches and
extraction-model calls the run performed. -/
structure RunResult where
  deals : List PVal
  db : List Row
  fetches : Nat
  llmCalls : Nat
deriving DecidableEq

/-- The body of `UberEatsDeals.get_restaurant_deals` up to its outer
`try`: a cache hit (any existing rows under the URL's fingerprint)
returns the stored deals with no driver start, no detail fetch and no
model call; otherwise the listing page is loaded (failure propagates to
the outer handler), scrolled until the height stabilizes (modelled by
`scrollLoopRun` below), and every store card is processed. -/
def get_restaurant_deals_attempt (w : World) (db : List Row) (now : Nat) (url : String) :
    Except String RunResult :=
  let existing_deals := get_existing_deals db url
  if existing_deals ≠ [] then .ok ⟨existing_deals, db, 0, 0⟩
  else
    match w.loadPage with
    | .error e => .error e
    | .ok _ =>
      match processAllCards w w.pageCards db now with
      | (ds, db2, f, l, _) => .ok ⟨ds, db2, f, l⟩

/-- Embedding of `UberEatsDeals.get_restaurant_deals`: the whole body runs inside
`try: ... except Exception as e: print(f"Error accessing the page: ...")`,
so a listing-page failure is logged and swallowed — the method returns
normally with `self.deals` left empty. -/
def get_restaurant_deals (w : World) (db : List Row) (now : Nat) (url : String) : RunResult :=
  match get_restaurant_deals_attempt w db now url with
  | .ok r => r
  | .error _ => ⟨[], db, 0, 0⟩

/-! ## Listing-page scroll loop

`last_height = scrollHeight; while True: scroll; sleep(2); new_height =
scrollHeight; if new_height == last_height: break; last_height =
new_height`. The readings are an abstract sequence `h : Nat → Nat`
(`h 0` the pre-loop reading, `h i` the reading after the `i`-th
scroll); the loop state is `(last, i)` and the loop stops at the first
`i ≥ 1` with `h i = h (i-1)`. `scrollAux` spends one unit of fuel per
reading, so divergence of the loop is `none` for every fuel. -/

def scrollAux (h : Nat → Nat) : Nat → Nat → Nat → Option Nat
  | 0, _, _ => none
  | fuel + 1, last, i => if h i = last then some i else scrollAux h fuel (h i) (i + 1)

/-- The scroll loop: returns the index of the reading at which it broke
out, or `none` if `fuel` readings did not reach two equal consecutive
readings. -/
def scrollLoopRun (h : Nat → Nat) (fuel : Nat) : Option Nat := scrollAux h fuel (h 0) 1

/-! ## Validator: `validate_deal_info`

`UberEatsDeals.__init__` sets `deals`, `db_lock`, `driver` and the
OpenAI key, and calls `setup_database`; no method of the class and no
other code in the repository ever assigns `schema_mapping`, so the
attribute read `self.schema_mapping.items()` in `validate_deal_info`
raises `AttributeError` on every call. The object state records the
attribute as `Option`; `none` is the unassigned state produced by
`__init__`. -/

structure UberEatsDealsObj where
  schema_mapping : Option (List (String × String))

/-- The `UberEatsDeals` instance state after `__init__`. -/
def uberEatsDealsNew : UberEatsDealsObj := { schema_mapping := none }

/-- One mapped column of `validate_deal_info`: the `price` column is
`float(value) if value else 0.0` guarded by `except (ValueError,
TypeError): 0.0`; every other column takes the raw value. -/
def validatedColumn (db_column : String) (value : PVal) : PVal :=
  if db_column = "price" then
    .num (if value.truthy then (pyFloat value).getD 0 else 0)
  else value

/-- The mapping loop of `validate_deal_info` over `schema_mapping.items()`. -/
def validateFields (mapping : List (String × String)) (deal_info : PVal) : PVal :=
  match mapping with
  | [] => .dnil
  | (col, field) :: rest =>
    .dcons col (validatedColumn col (pyGetD deal_info field (.str "")))
      (validateFields rest deal_info)

/-- Embedding of `UberEatsDeals.validate_deal_info`: reads `self.schema_mapping`
(raising `AttributeError` when the attribute was never assigned) and
maps every input field onto its database column, defaulting missing
fields to `''` and unconvertible prices to `0.0`. -/
def validate_deal_info (self : UberEatsDealsObj) (deal_info : PVal) : Except String PVal :=
  match self.schema_mapping with
  | none => .error "AttributeError: UberEatsDeals object has no attribute schema_mapping"
  | some mapping => .ok (validateFields mapping deal_info)

/-! ## Concrete fixtures

Small concrete documents, cards and worlds used to instantiate the
theorems below on executable inputs. -/

/-- A promo-marker image element. -/
def promoImg : HNode := .elem "img" [("src", "x/promo-tag-3x.png")] .hnil

/-- Wrap a node in `k` anonymous `div` layers. -/
def wrapDivs : Nat → HNode → HNode
  | 0, x => x
  | k + 1, x => .elem "div" [] (.hcons (wrapDivs k x) .hnil)

/-- A menu-item block deep enough that the nine-level ancestor walk
stops at this labelled `div` (the marker has eight anonymous ancestors
below it). -/
def fragBlock (idv : String) : HNode :=
  .elem "div" [("id", idv)] (.hcons (wrapDivs 8 promoImg) .hnil)

/-- A deal object as the model would return it. -/
def goodDeal : PVal :=
  .dcons "name" (.str "Burger")
    (.dcons "price" (.num 10)
      (.dcons "description" (.str "")
        (.dcons "promotion" (.str "BOGO") .dnil)))

/-- A well-shaped model response object `\x7b"deals": [goodDeal]\x7d`. -/
def goodJson : PVal := .dcons "deals" (.lcons goodDeal .lnil) .dnil

/-- A `json.loads` table: the response text `"R1"` decodes to
`goodJson`, everything else fails to parse. -/
def decodeFix : String → Option PVal := fun s => if s = "R1" then some goodJson else none

/-- A model that answers `"R1"` for the fragment labelled `f1` and the
unparseable text `"R2"` for every other fragment. -/
def respondMixed (s : String) : Except String String :=
  if containsSub "id=\"f1\"" s then .ok "R1" else .ok "R2"

/-- A page with two promo fragments, `f1` and `f2`. -/
def soupTwoFrags : HNode :=
  .elem "[document]" [] (.hcons (fragBlock "f1") (.hcons (fragBlock "f2") .hnil))

/-- A page with the single promo fragment `f1`. -/
def soupOneFrag : HNode := .elem "[document]" [] (.hcons (fragBlock "f1") .hnil)

/-- A page with no promo marker and a stray unclosed structure. -/
def soupNoPromo : HNode :=
  .elem "[document]" []
    (.hcons (.elem "div" [] (.hcons (.text "no offers here") .hnil))
      (.hcons (.elem "img" [("alt", "logo")] .hnil) .hnil))

/-- World whose detail page is `soupTwoFrags` and whose model is
`respondMixed`. -/
def worldMixed : World :=
  { loadPage := .ok ()
    pageCards := []
    fetchDetail := fun _ => .ok (200, soupTwoFrags)
    respond := respondMixed
    decode := decodeFix }

/-- A store card with name `Rest` and href `h`. -/
def cardRest : Card :=
  { h3Text := some "Rest", ariaLabel := none, href := some "h", promoText := none,
    feeTexts := [], ratingTitles := [], reviewsTitles := [], timeTexts := [] }

/-- World for a run over `cardRest` whose detail page is `soupOneFrag`
and whose model always answers the well-formed `"R1"`. -/
def worldOne : World :=
  { loadPage := .ok ()
    pageCards := [cardRest]
    fetchDetail := fun _ => .ok (200, soupOneFrag)
    respond := fun _ => .ok "R1"
    decode := decodeFix }

/-- The row `process_store_card` persists for `cardRest` in `worldOne`
at clock 0. -/
def rowRest : Row :=
  { url_hash := get_url_hash "h?mod=quickView"
    restaurant := .str "Rest"
    item_name := .str "Burger"
    price := 10
    description := .str ""
    promotion_type := .str "BOGO"
    delivery_fee := .str "Not specified"
    rating_and_reviews := .str ""
    delivery_time := .str "Not specified"
    url := .str "h?mod=quickView"
    timestamp := 0 }

/-- A stored row under the fingerprint of URL `"u"`. -/
def rowU : Row :=
  { url_hash := get_url_hash "u"
    restaurant := .str "A"
    item_name := .str "n"
    price := 5
    description := .str ""
    promotion_type := .str ""
    delivery_fee := .str ""
    rating_and_reviews := .str ""
    delivery_time := .str ""
    url := .str "u"
    timestamp := 3 }

/-- World with an empty listing page and otherwise inert collaborators. -/
def worldIdle : World :=
  { loadPage := .ok ()
    pageCards := []
    fetchDetail := fun _ => .error "unused"
    respond := fun _ => .error "unused"
    decode := fun _ => none }

/-- World whose listing page cannot be loaded at all. -/
def worldFail : World :=
  { loadPage := .error "net: ERR_NAME_NOT_RESOLVED"
    pageCards := [cardRest]
    fetchDetail := fun _ => .ok (200, soupOneFrag)
    respond := fun _ => .ok "R1"
    decode := decodeFix }

/-- A store card with a name but no link attribute. -/
def cardNoHref : Card :=
  { h3Text := some "X", ariaLabel := none, href := none, promoText := none,
    feeTexts := [], ratingTitles := [], reviewsTitles := [], timeTexts := [] }

/-- Fold a sequence of timestamped upserts over a table state. -/
def applySaves (db : List Row) (writes : List (PVal × Nat)) : List Row :=
  writes.foldl (fun d wr => save_deal_to_db d wr.1 wr.2) db

/-- A deal dict writing key `(fingerprint "u", "n")` with price 5. -/
def dealW1 : PVal :=
  .dcons "url" (.str "u")
    (.dcons "name" (.str "n")
      (.dcons "price" (.num 5) (.dcons "restaurant" (.str "A") .dnil)))

/-- A second deal dict for the same key with price 7 and another
restaurant value. -/
def dealW2 : PVal :=
  .dcons "url" (.str "u")
    (.dcons "name" (.str "n")
      (.dcons "price" (.num 7) (.dcons "restaurant" (.str "B") .dnil)))

/-! ## Infrastructure lemmas -/

theorem flatMap_hex8_length (ws : List Nat) : (ws.flatMap hex8).length = 8 * ws.length := by
  induction ws with
  | nil => rfl
  | cons w ws ih =>
    simp only [List.flatMap_cons, List.length_append, ih, List.length_cons]
    simp [hex8]
    ring

theorem sha256Words_length (msg : List Nat) : (sha256Words msg).length = 8 := rfl

/-! ## C3: the validator raises on every call -/

/-- C3: the claim states that `validate_deal_info` never raises and
returns a normalized record; in the code, `self.schema_mapping` is never
assigned anywhere in the repository, so every call — whatever the input
record — raises `AttributeError` before looking at a single field. -/
theorem c3_validate_deal_info_always_raises (deal_info : PVal) :
    validate_deal_info uberEatsDealsNew deal_info =
      .error "AttributeError: UberEatsDeals object has no attribute schema_mapping" := rfl

/-! ## C5: segmenter on marker-free documents -/

/-- C5: a parsed document with zero promotion-marker images makes
`extract_deals_with_llm` return an empty deal sequence immediately, with
zero extraction-model calls and no exception (the result is `.ok`; the
embedding is total on every parsed tree, and BeautifulSoup's lenient
parser producing that tree does not raise on malformed markup). -/
theorem c5_segmenter_empty_on_no_marker (respond : String → Except String String)
    (decode : String → Option PVal) (soup : HNode) (hmark : findPromoTags soup = []) :
    extract_deals_with_llm respond decode soup = (.ok [], 0) := by
  simp [extract_deals_with_llm, hmark]

/-- Witness for C5 on a concrete marker-free document with a stray
structure. -/
theorem c5_witness :
    extract_deals_with_llm (fun _ => .error "down") (fun _ => none) soupNoPromo = (.ok [], 0) :=
  c5_segmenter_empty_on_no_marker _ _ _ (by decide)

/-! ## C7: fingerprint determinism and fixed-length output -/

/-- C7: `get_url_hash` is a pure function of the URL string (calling it
twice on equal inputs yields identical output) and its output length is
always 16, independent of the input: the SHA-256 hex digest has 64
characters and the code keeps the first 16. Being a total Lean function
of its argument, the embedding has no side effects; the only failure
mode of the original, a non-string argument to `.encode()`, is excluded
by the `String` type. -/
theorem c7_get_url_hash_deterministic_fixed_length (u : String) :
    (get_url_hash u).length = 16 ∧ ∀ v : String, u = v → get_url_hash u = get_url_hash v := by
  constructor
  · show (((sha256Words (utf8Encode u)).flatMap hex8).take 16).length = 16
    rw [List.length_take, flatMap_hex8_length, sha256Words_length]
    omega
  · intro v h
    rw [h]

/-- Witness for C7 at a concrete URL. -/
theorem c7_witness :
    (get_url_hash "https://www.ubereats.com/de-en/offers").length = 16 ∧
      get_url_hash "https://www.ubereats.com/de-en/offers" =
        get_url_hash "https://www.ubereats.com/de-en/offers" :=
  ⟨(c7_get_url_hash_deterministic_fixed_length "https://www.ubereats.com/de-en/offers").1,
   (c7_get_url_hash_deterministic_fixed_length "https://www.ubereats.com/de-en/offers").2 _ rfl⟩

/-! ## C9: scroll-loop termination -/

theorem scrollAux_stops (h : Nat → Nat) :
    ∀ d i, 0 < i → h (i + d) = h (i + d - 1) →
      (∀ j, i ≤ j → j < i + d → h j ≠ h (j - 1)) →
      scrollAux h (d + 1) (h (i - 1) ) i = some (i + d) := by
  intro d
  induction d with
  | zero =>
    intro i hi heq _
    show (if h i = h (i - 1) then some i else scrollAux h 0 (h i) (i + 1)) = some (i + 0)
    rw [if_pos (by simpa using heq)]
    simp
  | succ d ih =>
    intro i hi heq hmin
    have hne : h i ≠ h (i - 1) := hmin i le_rfl (by omega)
    show (if h i = h (i - 1) then some i else scrollAux h (d + 1) (h i) (i + 1)) =
      some (i + (d + 1))
    rw [if_neg hne]
    have h2 := ih (i + 1) (by omega)
      (by rw [show i + 1 + d = i + (d + 1) from by omega]; exact heq)
      (fun j hj hj2 => hmin j (by omega) (by omega))
    rw [Nat.add_sub_cancel] at h2
    rw [h2]
    congr 1
    omega

theorem scrollAux_none (h : Nat → Nat) (hall : ∀ n, h (n + 1) ≠ h n) :
    ∀ fuel i, 0 < i → scrollAux h fuel (h (i - 1) ) i = none := by
  intro fuel
  induction fuel with
  | zero => intro i _; rfl
  | succ fuel ih =>
    intro i hi
    show (if h i = h (i - 1) then some i else scrollAux h fuel (h i) (i + 1)) = none
    rw [if_neg]
    · have h2 := ih (i + 1) (by omega)
      rwa [Nat.add_sub_cancel] at h2
    · have h3 := hall (i - 1)
      rwa [Nat.sub_add_cancel hi] at h3

/-- C9: the scroll loop polls readings `h 0, h 1, …` and its only exit
is two equal consecutive readings. If the reading sequence ever repeats
a value on consecutive reads, the loop terminates — with enough fuel,
`scrollLoopRun` breaks at exactly the first index whose reading equals
its predecessor — and if no two consecutive readings are ever equal, no
amount of fuel makes it stop (there is no timeout). -/
theorem c9_scroll_loop_termination (h : Nat → Nat) :
    ((∃ n, h (n + 1) = h n) →
      ∃ fuel i, scrollLoopRun h fuel = some i ∧ 0 < i ∧ h i = h (i - 1) ∧
        ∀ j, 0 < j → j < i → h j ≠ h (j - 1)) ∧
    ((∀ n, h (n + 1) ≠ h n) → ∀ fuel, scrollLoopRun h fuel = none) := by
  constructor
  · intro hex
    have heq : h (1 + Nat.find hex) = h (1 + Nat.find hex - 1) := by
      rw [show 1 + Nat.find hex = Nat.find hex + 1 from by omega,
          show Nat.find hex + 1 - 1 = Nat.find hex from by omega]
      exact Nat.find_spec hex
    have hmin : ∀ j, 0 < j → j < 1 + Nat.find hex → h j ≠ h (j - 1) := by
      intro j hj hlt hcon
      refine Nat.find_min hex (m := j - 1) (by omega) ?_
      rw [Nat.sub_add_cancel hj]
      exact hcon
    refine ⟨Nat.find hex + 1, 1 + Nat.find hex, ?_, by omega, heq, hmin⟩
    exact scrollAux_stops h (Nat.find hex) 1 one_pos heq (fun j hj => hmin j hj)
  · intro hall fuel
    exact scrollAux_none h hall fuel 1 one_pos

/-- Witness for C9 on the reading sequence `0, 1, 2, 2, 2, …`. -/
theorem c9_witness :
    ∃ fuel i, scrollLoopRun (fun n => min n 2) fuel = some i ∧ 0 < i ∧
      min i 2 = min (i - 1) 2 ∧
      ∀ j, 0 < j → j < i → min j 2 ≠ min (j - 1) 2 :=
  (c9_scroll_loop_termination (fun n => min n 2)).1 ⟨2, by norm_num⟩

/-! ## C4: cache short-circuit -/

theorem insertByTsDesc_length (r : Row) (l : List Row) :
    (insertByTsDesc r l).length = l.length + 1 := by
  induction l with
  | nil => rfl
  | cons x xs ih =>
    by_cases hx : x.timestamp < r.timestamp
    · simp [insertByTsDesc, hx]
    · simp [insertByTsDesc, hx, ih]

theorem sortByTsDesc_length (l : List Row) : (sortByTsDesc l).length = l.length := by
  induction l with
  | nil => rfl
  | cons x xs ih => simp [sortByTsDesc, insertByTsDesc_length, ih]

theorem get_existing_deals_ne_nil {db : List Row} {url : String}
    (hrow : db.filter (fun r => r.url_hash = get_url_hash url) ≠ []) :
    get_existing_deals db url ≠ [] := by
  intro hempty
  apply hrow
  have hlen := congrArg List.length hempty
  simp only [get_existing_deals, List.length_map, sortByTsDesc_length, List.length_nil] at hlen
  exact List.length_eq_zero.mp hlen

/-- C4: a discovery run for a URL whose fingerprint has at least one row
in the deals store performs zero detail-page fetches and zero
extraction-model calls, and returns exactly the stored rows for that
fingerprint (most recent first, as `get_existing_deals` delivers them) —
the cache check precedes the driver, the fetches and the model. -/
theorem c4_cache_short_circuit (w : World) (db : List Row) (now : Nat) (url : String)
    (hrow : db.filter (fun r => r.url_hash = get_url_hash url) ≠ []) :
    get_restaurant_deals w db now url = ⟨get_existing_deals db url, db, 0, 0⟩ ∧
      get_existing_deals db url ≠ [] := by
  have hne := get_existing_deals_ne_nil hrow
  refine ⟨?_, hne⟩
  simp only [get_restaurant_deals, get_restaurant_deals_attempt]
  rw [if_pos hne]

/-- Witness for C4: one stored row under the fingerprint of `"u"`. -/
theorem c4_witness :
    get_restaurant_deals worldIdle [rowU] 0 "u" = ⟨get_existing_deals [rowU] "u", [rowU], 0, 0⟩ ∧
      get_existing_deals [rowU] "u" ≠ [] :=
  c4_cache_short_circuit worldIdle [rowU] 0 "u" (by simp [rowU])

/-! ## C8: fatal-error surfacing

The claim says a listing-page load failure is surfaced to the caller as
a `Failed` run. In the code the whole body of `get_restaurant_deals`
sits inside `try: ... except Exception: print(...)`, so the failure is
logged and swallowed: the method returns normally, `self.deals` stays
empty, and the caller cannot distinguish the run from a successful run
over an empty listing. -/

/-- Counterexample to C8 as stated: with a listing page that cannot be
loaded, the attempt raises, but `get_restaurant_deals` returns the
normal no-deals result — identical to the result of a successful run
over an empty listing page — so no `Failed` state reaches the caller. -/
theorem c8_counterexample :
    get_restaurant_deals_attempt worldFail [] 0 "u" = .error "net: ERR_NAME_NOT_RESOLVED" ∧
    get_restaurant_deals worldFail [] 0 "u" = ⟨[], [], 0, 0⟩ ∧
    get_restaurant_deals worldFail [] 0 "u" = get_restaurant_deals worldIdle [] 0 "u" :=
  ⟨rfl, rfl, rfl⟩

theorem process_store_card_no_href (w : World) (db : List Row) (now : Nat) (c : Card)
    (hhref : c.href = none) : process_store_card w db now c = ⟨[], db, 0, 0, now⟩ := by
  unfold process_store_card
  rw [hhref]
  cases hh : c.h3Text with
  | some t => simp
  | none =>
    cases ha : c.ariaLabel with
    | none => rfl
    | some s => simp

/-- C8 amended: a listing-page load failure is caught inside
`get_restaurant_deals` and only logged; the run returns normally with no
deals, no table change and no fetches — the caller observes a normal
empty result, not a `Failed` state. The second half of the claim holds:
a single card's failure (here, a card with no link) is isolated, leaving
the processing of its sibling cards exactly as if the card were absent. -/
theorem c8_amended_load_failure_swallowed :
    (∀ (w : World) (db : List Row) (now : Nat) (url : String) (e : String),
      w.loadPage = .error e → get_existing_deals db url = [] →
      get_restaurant_deals w db now url = ⟨[], db, 0, 0⟩) ∧
    (∀ (w : World) (db : List Row) (now : Nat) (c : Card) (cs : List Card),
      c.href = none →
      processAllCards w (c :: cs) db now = processAllCards w cs db now) := by
  constructor
  · intro w db now url e hload hempty
    simp only [get_restaurant_deals, get_restaurant_deals_attempt, hempty]
    rw [if_neg (by simp), hload]
  · intro w db now c cs hhref
    show (let o := process_store_card w db now c;
      match processAllCards w cs o.db o.now with
      | (ds, db2, f2, l2, n2) => (o.deals ++ ds, db2, o.fetches + f2, o.llmCalls + l2, n2)) =
      processAllCards w cs db now
    rw [process_store_card_no_href w db now c hhref]
    show (match processAllCards w cs db now with
      | (ds, db2, f2, l2, n2) => (([] : List PVal) ++ ds, db2, 0 + f2, 0 + l2, n2)) =
      processAllCards w cs db now
    rcases hrec : processAllCards w cs db now with ⟨ds, db2, f2, l2, n2⟩
    simp

/-- Witness for C8's amended statement: the failing world returns the
normal empty result, and a link-less card leaves sibling processing
untouched. -/
theorem c8_witness :
    get_restaurant_deals worldFail [] 0 "u" = ⟨[], [], 0, 0⟩ ∧
    processAllCards worldIdle [cardNoHref] [] 0 = processAllCards worldIdle [] [] 0 :=
  ⟨c8_amended_load_failure_swallowed.1 worldFail [] 0 "u" "net: ERR_NAME_NOT_RESOLVED" rfl rfl,
   c8_amended_load_failure_swallowed.2 worldIdle [] 0 cardNoHref [] rfl⟩

/-! ## C1: upsert uniqueness and last-write-wins -/

theorem saveRowOf_timestamp {d : PVal} {now : Nat} {row : Row}
    (h : saveRowOf d now = some row) : row.timestamp = now := by
  unfold saveRowOf at h
  split at h
  · split at h
    · cases h
    · split at h
      · cases h
      · cases h
        rfl
  · cases h

theorem filter_key_after_drop (db : List Row) (fp : String) (nm : PVal) :
    ((db.filter (fun r => ¬(r.url_hash = fp ∧ r.item_name = nm))).filter
      (fun r => r.url_hash = fp ∧ r.item_name = nm)) = [] := by
  induction db with
  | nil => rfl
  | cons x xs ih =>
    by_cases hx : x.url_hash = fp ∧ x.item_name = nm
    · rw [List.filter_cons, if_neg (by simp [hx])]
      exact ih
    · rw [List.filter_cons, if_pos (by simp [hx]), List.filter_cons, if_neg (by simp [hx])]
      exact ih

/-- C1: for every nonempty sequence of `save_deal_to_db` calls whose
deal records all write the same `(url fingerprint, item name)` key, the
final table holds exactly one row for that key; the row's field values
are the ones bound for the last write, and its timestamp is the last
write's clock (a fresh `CURRENT_TIMESTAMP`, never carried over from an
earlier row). -/
theorem c1_upsert_last_write_wins (db : List Row) (writes : List (PVal × Nat)) (fp : String)
    (nm : PVal)
    (hkeys : ∀ wr ∈ writes, ∃ row, saveRowOf wr.1 wr.2 = some row ∧
      row.url_hash = fp ∧ row.item_name = nm) :
    ∀ lw, writes.getLast? = some lw →
      ∃ lastRow, saveRowOf lw.1 lw.2 = some lastRow ∧
        (applySaves db writes).filter (fun r => r.url_hash = fp ∧ r.item_name = nm) = [lastRow] ∧
        lastRow.timestamp = lw.2 := by
  induction writes generalizing db with
  | nil => intro lw hlw; cases hlw
  | cons w ws ih =>
    intro lw hlw
    cases ws with
    | nil =>
      obtain ⟨row, hrow, hfp, hnm⟩ := hkeys w (by simp)
      have hw : w = lw := by simpa using hlw
      subst hw
      refine ⟨row, hrow, ?_, saveRowOf_timestamp hrow⟩
      show (save_deal_to_db db w.1 w.2).filter _ = [row]
      rw [show save_deal_to_db db w.1 w.2 =
            db.filter (fun r => ¬(r.url_hash = row.url_hash ∧ r.item_name = row.item_name)) ++
              [row] from by simp [save_deal_to_db, hrow]]
      rw [List.filter_append, hfp, hnm, filter_key_after_drop]
      simp [hfp, hnm]
    | cons w2 ws2 =>
      rw [List.getLast?_cons_cons] at hlw
      exact ih (save_deal_to_db db w.1 w.2) (fun wr hwr => hkeys wr (by simp [hwr])) lw hlw

/-- Witness for C1: two writes for the key `(fingerprint "u", "n")` at
clocks 5 and 9; the surviving row is the second write's. -/
theorem c1_witness :
    ∃ lastRow, saveRowOf dealW2 9 = some lastRow ∧
      (applySaves [] [(dealW1, 5), (dealW2, 9)]).filter
        (fun r => r.url_hash = get_url_hash "u" ∧ r.item_name = .str "n") = [lastRow] ∧
      lastRow.timestamp = 9 := by
  refine c1_upsert_last_write_wins [] [(dealW1, 5), (dealW2, 9)] (get_url_hash "u") (.str "n")
    ?_ (dealW2, 9) rfl
  intro wr hwr
  simp only [List.mem_cons, List.not_mem_nil, or_false] at hwr
  rcases hwr with rfl | rfl
  · exact ⟨_, rfl, rfl, rfl⟩
  · exact ⟨_, rfl, rfl, rfl⟩

/-! ## C10: persisted rows carry the quickView URL and its fingerprint -/

theorem mem_save_deal_to_db {db : List Row} {d : PVal} {now : Nat} {r : Row}
    (hr : r ∈ save_deal_to_db db d now) : r ∈ db ∨ saveRowOf d now = some r := by
  unfold save_deal_to_db at hr
  split at hr
  · exact .inl hr
  · rename_i row hrow
    rw [List.mem_append] at hr
    rcases hr with hr | hr
    · exact .inl (List.mem_of_mem_filter hr)
    · rw [List.mem_singleton] at hr
      subst hr
      exact .inr hrow

theorem saveRowOf_url_fields {merged : PVal} {link : String} {now : Nat} {r : Row}
    (h : saveRowOf (PVal.dcons "url" (.str link) merged) now = some r) :
    r.url_hash = get_url_hash link ∧ r.url = .str link := by
  unfold saveRowOf at h
  split at h
  · split at h
    · cases h
    · rename_i urlStr hurl
      split at h
      · cases h
      · cases h
        have hu : urlStr = link := by
          simpa [pvalAsStr, pyGetD, dictLookup] using hurl.symm
        subst hu
        exact ⟨rfl, rfl⟩
  · cases h

theorem mem_addDealsAux (basic : PVal) (link : String) :
    ∀ (ds : List PVal) (db : List Row) (now : Nat) (r : Row),
      r ∈ (addDealsAux basic link db now ds).2.1 →
      r ∈ db ∨ (r.url_hash = get_url_hash link ∧ r.url = .str link) := by
  intro ds
  induction ds with
  | nil => intro db now r hr; exact .inl hr
  | cons d ds ih =>
    intro db now r hr
    rcases hu : dictUpdateP basic d with - | merged
    · rw [show addDealsAux basic link db now (d :: ds) = (none, db, now) from by
        simp [addDealsAux, hu]] at hr
      exact .inl hr
    · have hr2 : r ∈ (addDealsAux basic link
          (save_deal_to_db db (PVal.dcons "url" (.str link) merged) now) (now + 1) ds).2.1 := by
        revert hr
        simp only [addDealsAux, hu]
        rcases addDealsAux basic link
            (save_deal_to_db db (PVal.dcons "url" (.str link) merged) now) (now + 1) ds with
          ⟨res, db3, n3⟩
        cases res <;> exact fun hr => hr
      rcases ih _ (now + 1) r hr2 with hdb | hnewrow
      · rcases mem_save_deal_to_db hdb with hdb2 | hsaved
        · exact .inl hdb2
        · exact .inr (saveRowOf_url_fields hsaved)
      · exact .inr hnewrow

theorem process_store_card_db_mem (w : World) (db : List Row) (now : Nat) (c : Card) (r : Row)
    (hr : r ∈ (process_store_card w db now c).db) :
    r ∈ db ∨ ∃ link, c.href = some link ∧
      r.url_hash = get_url_hash (addQuickView link) ∧ r.url = .str (addQuickView link) := by
  unfold process_store_card at hr
  cases hh3 : c.h3Text with
  | some t =>
    rw [hh3] at hr
    by_cases ht : pyStrip t = ""
    · simp only [ht, if_pos rfl] at hr
      exact .inl hr
    · simp only [if_neg ht] at hr
      cases hhf : c.href with
      | none => rw [hhf] at hr; exact .inl hr
      | some href0 =>
        rw [hhf] at hr
        dsimp only at hr
        by_cases h0 : href0 = ""
        · rw [if_pos h0] at hr
          exact .inl hr
        · rw [if_neg h0] at hr
          rcases hed : extract_deal_details w (addQuickView href0) with ⟨specific, f, l⟩
          rw [hed] at hr
          have hr2 : r ∈ (addDealsAux (basic_info_of c (pyStrip t)) (addQuickView href0)
              db now specific).2.1 := by
            revert hr
            rcases addDealsAux (basic_info_of c (pyStrip t)) (addQuickView href0)
                db now specific with ⟨res, db3, n3⟩
            cases res <;> exact fun hr => hr
          rcases mem_addDealsAux _ _ specific db now r hr2 with hdb | hnewrow
          · exact .inl hdb
          · exact .inr ⟨href0, rfl, hnewrow.1, hnewrow.2⟩
  | none =>
    rw [hh3] at hr
    cases ha : c.ariaLabel with
    | none => rw [ha] at hr; exact .inl hr
    | some s =>
      rw [ha] at hr
      dsimp only at hr
      by_cases hs : s = ""
      · rw [if_pos hs] at hr
        exact .inl hr
      · rw [if_neg hs] at hr
        cases hhf : c.href with
        | none => rw [hhf] at hr; exact .inl hr
        | some href0 =>
          rw [hhf] at hr
          dsimp only at hr
          by_cases h0 : href0 = ""
          · rw [if_pos h0] at hr
            exact .inl hr
          · rw [if_neg h0] at hr
            rcases hed : extract_deal_details w (addQuickView href0) with ⟨specific, f, l⟩
            rw [hed] at hr
            have hr2 : r ∈ (addDealsAux (basic_info_of c s) (addQuickView href0)
                db now specific).2.1 := by
              revert hr
              rcases addDealsAux (basic_info_of c s) (addQuickView href0)
                  db now specific with ⟨res, db3, n3⟩
              cases res <;> exact fun hr => hr
            rcases mem_addDealsAux _ _ specific db now r hr2 with hdb | hnewrow
            · exact .inl hdb
            · exact .inr ⟨href0, rfl, hnewrow.1, hnewrow.2⟩

/-- C10: every row a store-card worker adds to the table stores as its
`url` the card's href with `mod=quickView` appended (`&mod=quickView`
after an existing query string, else `?mod=quickView`), and its stored
fingerprint is computed over that modified URL — hence whenever the
digests of the raw href and the modified URL differ, the stored
fingerprint differs from `get_url_hash` of the raw href. -/
theorem c10_quickview_url_fingerprint (w : World) (db : List Row) (now : Nat) (c : Card)
    (r : Row) (hr : r ∈ (process_store_card w db now c).db) (hnew : r ∉ db) :
    ∃ link, c.href = some link ∧
      r.url_hash = get_url_hash (addQuickView link) ∧
      r.url = .str (addQuickView link) ∧
      (get_url_hash link ≠ get_url_hash (addQuickView link) → r.url_hash ≠ get_url_hash link) := by
  rcases process_store_card_db_mem w db now c r hr with hdb | ⟨link, hlink, hhash, hurl⟩
  · exact absurd hdb hnew
  · refine ⟨link, hlink, hhash, hurl, ?_⟩
    intro hneq
    rw [hhash]
    exact hneq.symm

set_option maxRecDepth 40000 in
/-- Witness for C10: a full per-card run over `worldOne` persists
exactly `rowRest`, whose stored URL and fingerprint use
`"h?mod=quickView"`, the quickView rewrite of the card href `"h"`. -/
theorem c10_witness :
    ∃ link, cardRest.href = some link ∧
      rowRest.url_hash = get_url_hash (addQuickView link) ∧
      rowRest.url = .str (addQuickView link) ∧
      (get_url_hash link ≠ get_url_hash (addQuickView link) →
        rowRest.url_hash ≠ get_url_hash link) := by
  have hdb : (process_store_card worldOne [] 0 cardRest).db = [rowRest] := rfl
  exact c10_quickview_url_fingerprint worldOne [] 0 cardRest rowRest
    (by rw [hdb]; exact List.mem_singleton.mpr rfl) (by simp)

/-! ## C2: fragment isolation

The claim says a single unparseable fragment never blocks or discards
sibling fragments' deals. The code gathers the per-fragment tasks with
`return_exceptions=True`, but the collection loop then re-raises the
first exception it meets, and `extract_deal_details` catches that
exception and returns `[]` for the whole card: the sibling fragments'
already-computed deals are discarded. -/

set_option maxRecDepth 1000000 in
/-- Counterexample to C2 as stated: on a page with two promo fragments,
fragment `f1` parses to one deal, fragment `f2` is unparseable — and the
batch returns the re-raised parse error with zero deals (the card's
caller records `[]`), not the sibling's one deal. -/
theorem c2_counterexample :
    process_menu_item respondMixed decodeFix (serializeNode (fragBlock "f1")) =
      .ok (.lcons goodDeal .lnil) ∧
    extract_deals_with_llm respondMixed decodeFix soupTwoFrags =
      (.error "Failed to parse OpenAI response as JSON", 2) ∧
    extract_deal_details worldMixed "detail" = ([], 1, 2) :=
  ⟨rfl, rfl, rfl⟩

theorem extract_eq_collect (respond : String → Except String String)
    (decode : String → Option PVal) (soup : HNode) :
    extract_deals_with_llm respond decode soup =
      (collectResults ((menuItemsOf soup).map (process_menu_item respond decode)),
        (menuItemsOf soup).length) := by
  cases hfp : findPromoTags soup with
  | nil =>
    have hm : menuItemsOf soup = [] := by unfold menuItemsOf; rw [hfp]; rfl
    simp [extract_deals_with_llm, hfp, hm, collectResults, collectResultsAux]
  | cons a l =>
    have hm : menuItemsOf soup = serializeNode (walkUp a) :: l.map (fun c => serializeNode (walkUp c)) := by
      unfold menuItemsOf; rw [hfp]; rfl
    simp [extract_deals_with_llm, hfp, hm]

theorem collectResultsAux_first_error (e : String) (post : List (Except String PVal)) :
    ∀ (pre : List (Except String PVal)) (acc : List PVal),
      (∀ x ∈ pre, ∃ v xs, x = .ok v ∧ pyIter v = some xs) →
      collectResultsAux acc (pre ++ .error e :: post) = .error e := by
  intro pre
  induction pre with
  | nil => intro acc _; rfl
  | cons x pre ih =>
    intro acc hpre
    obtain ⟨v, xs, rfl, hiter⟩ := hpre x (by simp)
    show collectResultsAux acc (.ok v :: (pre ++ .error e :: post)) = .error e
    simp only [collectResultsAux, hiter]
    exact ih (acc ++ xs) (fun y hy => hpre y (by simp [hy]))

theorem collectResultsAux_all_parsed :
    ∀ (vs : List (PVal × List PVal)) (acc : List PVal),
      (∀ p ∈ vs, pyIter p.1 = some p.2) →
      collectResultsAux acc (vs.map (fun p => Except.ok p.1)) =
        .ok (acc ++ vs.flatMap (fun p => p.2)) := by
  intro vs
  induction vs with
  | nil => intro acc _; simp [collectResultsAux]
  | cons p vs ih =>
    intro acc hall
    have hp := hall p (by simp)
    show collectResultsAux acc (Except.ok p.1 :: vs.map (fun q => Except.ok q.1)) = _
    simp only [collectResultsAux, hp]
    rw [ih (acc ++ p.2) (fun q hq => hall q (by simp [hq]))]
    simp [List.append_assoc]

/-- C2 amended: fragments are processed independently and a batch in
which every fragment's response parses — each per-fragment result is
`.ok` on an iterable deals value — returns exactly the concatenation of
the per-fragment deal lists, in fragment order; but as soon as any
fragment's response is unparseable (or its API call fails), the first
such failure in fragment order is re-raised after the gather, the whole
batch returns that error — sibling fragments' extracted deals are
discarded, not returned — and the card's caller
(`extract_deal_details`) records zero deals for the card. -/
theorem c2_amended_first_failure_discards_batch :
    (∀ (respond : String → Except String String) (decode : String → Option PVal) (soup : HNode)
        (vs : List (PVal × List PVal)),
      (menuItemsOf soup).map (process_menu_item respond decode) =
        vs.map (fun p => Except.ok p.1) →
      (∀ p ∈ vs, pyIter p.1 = some p.2) →
      extract_deals_with_llm respond decode soup =
        (.ok (vs.flatMap (fun p => p.2)), (menuItemsOf soup).length)) ∧
    (∀ (respond : String → Except String String) (decode : String → Option PVal) (soup : HNode)
        (pre post : List (Except String PVal)) (e : String),
      (menuItemsOf soup).map (process_menu_item respond decode) = pre ++ .error e :: post →
      (∀ x ∈ pre, ∃ v xs, x = .ok v ∧ pyIter v = some xs) →
      extract_deals_with_llm respond decode soup = (.error e, (menuItemsOf soup).length)) ∧
    (∀ (w : World) (link : String) (soup : HNode) (e : String) (n : Nat),
      w.fetchDetail link = .ok (200, soup) →
      extract_deals_with_llm w.respond w.decode soup = (.error e, n) →
      extract_deal_details w link = ([], 1, n)) := by
  refine ⟨?_, ?_, ?_⟩
  · intro respond decode soup vs hmap hall
    rw [extract_eq_collect, hmap]
    rw [show collectResults (vs.map (fun p => Except.ok p.1)) =
        .ok (vs.flatMap (fun p => p.2)) from by
      rw [collectResults, collectResultsAux_all_parsed vs [] hall]
      simp]
  · intro respond decode soup pre post e hmap hpre
    rw [extract_eq_collect, hmap]
    rw [show collectResults (pre ++ .error e :: post) = .error e from
      collectResultsAux_first_error e post pre [] hpre]
  · intro w link soup e n hfetch hext
    unfold extract_deal_details
    rw [hfetch]
    dsimp only
    rw [if_pos rfl, hext]

set_option maxRecDepth 1000000 in
/-- Witness for the amended C2 on the two-fragment fixture. First: when
the model answers the parseable `"R1"` for both fragments, the batch
returns exactly the concatenation of the two per-fragment deal lists.
Second: with `respondMixed`, fragment `f1` contributes `.ok` with one
deal but fragment `f2` fails to parse, and the batch collapses to the
parse error. -/
theorem c2_witness :
    extract_deals_with_llm (fun _ => .ok "R1") decodeFix soupTwoFrags =
      (.ok ([(PVal.lcons goodDeal .lnil, [goodDeal]),
             (PVal.lcons goodDeal .lnil, [goodDeal])].flatMap (fun p => p.2)),
        (menuItemsOf soupTwoFrags).length) ∧
    extract_deals_with_llm respondMixed decodeFix soupTwoFrags =
      (.error "Failed to parse OpenAI response as JSON",
        (menuItemsOf soupTwoFrags).length) := by
  constructor
  · refine c2_amended_first_failure_discards_batch.1 (fun _ => .ok "R1") decodeFix soupTwoFrags
      [(.lcons goodDeal .lnil, [goodDeal]), (.lcons goodDeal .lnil, [goodDeal])] rfl ?_
    intro p hp
    rw [List.mem_cons, List.mem_singleton] at hp
    rcases hp with rfl | rfl
    · rfl
    · rfl
  · refine c2_amended_first_failure_discards_batch.2.1 respondMixed decodeFix soupTwoFrags
      [.ok (.lcons goodDeal .lnil)] [] "Failed to parse OpenAI response as JSON" rfl ?_
    intro x hx
    rw [List.mem_singleton] at hx
    subst hx
    exact ⟨_, _, rfl, rfl⟩

/-! ## C6: the fence-unwrapping rule

`content.split('```json')[1].split('```')[0]` versus the spec's "the
content between the first ```json fence and its closing ``` fence".
The lemmas below characterize `findSub`/`pySplit` by occurrence
positions and reduce the double split to prefix-taking. -/

theorem containsSubAux_eq_isSome (sep : List Char) :
    ∀ s, containsSubAux sep s = (findSub sep s).isSome := by
  intro s
  induction s with
  | nil =>
    show startsWithL sep [] = (if startsWithL sep [] then some 0 else none).isSome
    cases h : startsWithL sep [] <;> simp [h]
  | cons c t ih =>
    show (startsWithL sep (c :: t) || containsSubAux sep t) =
      (if startsWithL sep (c :: t) then some 0 else (findSub sep t).map (· + 1)).isSome
    cases h : startsWithL sep (c :: t) with
    | true => simp [h]
    | false => cases hf : findSub sep t <;> simp [h, ih, hf]

theorem pySplit_getD_zero (sep : List Char) (hsep : 0 < sep.length) (s : List Char) :
    (pySplit sep hsep s).getD 0 [] = takeUntilSub sep s := by
  unfold pySplit
  split <;> rename_i h <;> simp [takeUntilSub, h]

theorem pySplit_getD_one (sep : List Char) (hsep : 0 < sep.length) (s : List Char) (i : Nat)
    (h : findSub sep s = some i) :
    (pySplit sep hsep s).getD 1 [] = takeUntilSub sep (s.drop (i + sep.length)) := by
  unfold pySplit
  split
  · rename_i h'
    rw [h'] at h
    cases h
  · rename_i j h'
    have hji : j = i := by rw [h'] at h; exact Option.some.inj h
    subst hji
    show (pySplit sep hsep (s.drop (j + sep.length))).getD 0 [] = _
    exact pySplit_getD_zero sep hsep _

theorem unwrap_eq (content : List Char) :
    unwrapContent content =
      match findSub jsonFenceChars content with
      | none => content
      | some i =>
        takeUntilSub fenceChars
          (takeUntilSub jsonFenceChars (content.drop (i + jsonFenceChars.length))) := by
  unfold unwrapContent
  rw [containsSubAux_eq_isSome]
  cases h : findSub jsonFenceChars content with
  | none => simp
  | some i =>
    simp only [Option.isSome_some, if_true]
    rw [pySplit_getD_one jsonFenceChars (by decide) content i h,
        pySplit_getD_zero fenceChars (by decide)]

theorem startsWithL_trans : ∀ {a b c : List Char},
    startsWithL a b = true → startsWithL b c = true → startsWithL a c = true := by
  intro a
  induction a with
  | nil => intros; rfl
  | cons x xs ih =>
    intro b c hab hbc
    cases b with
    | nil => cases hab
    | cons y ys =>
      cases c with
      | nil => cases hbc
      | cons z zs =>
        simp only [startsWithL, Bool.and_eq_true, decide_eq_true_eq] at hab hbc ⊢
        exact ⟨hab.1.trans hbc.1, ih hab.2 hbc.2⟩

theorem startsWithL_of_take : ∀ {sep u : List Char} {q : Nat},
    startsWithL sep (u.take q) = true → startsWithL sep u = true := by
  intro sep
  induction sep with
  | nil => intros; rfl
  | cons x xs ih =>
    intro u q h
    cases u with
    | nil => simpa using h
    | cons y ys =>
      cases q with
      | zero => cases h
      | succ q' =>
        simp only [List.take_succ_cons, startsWithL, Bool.and_eq_true] at h ⊢
        exact ⟨h.1, ih h.2⟩

theorem startsWithL_take : ∀ {sep u : List Char} {q : Nat},
    startsWithL sep u = true → sep.length ≤ q → startsWithL sep (u.take q) = true := by
  intro sep
  induction sep with
  | nil => intros; rfl
  | cons x xs ih =>
    intro u q h hq
    cases u with
    | nil => cases h
    | cons y ys =>
      cases q with
      | zero => simp at hq
      | succ q' =>
        simp only [List.take_succ_cons, startsWithL, Bool.and_eq_true] at h ⊢
        exact ⟨h.1, ih h.2 (by simpa using hq)⟩

theorem occurrence_bound {sep t : List Char} {p : Nat} (hsep : 0 < sep.length)
    (h : startsWithL sep (t.drop p) = true) : p + sep.length ≤ t.length := by
  have h1 := startsWithL_length h
  rw [List.length_drop] at h1
  omega

theorem findSub_eq_some_iff (sep : List Char) : ∀ (s : List Char) (i : Nat),
    findSub sep s = some i ↔
      (startsWithL sep (s.drop i) = true ∧ ∀ p, p < i → startsWithL sep (s.drop p) = false) := by
  intro s
  induction s with
  | nil =>
    intro i
    show (if startsWithL sep [] then some 0 else none) = some i ↔ _
    cases h : startsWithL sep [] with
    | true =>
      constructor
      · intro hi
        have h0 : i = 0 := by simpa using (Option.some.inj hi).symm
        subst h0
        exact ⟨by simpa using h, fun p hp => absurd hp (by omega)⟩
      · rintro ⟨h1, h2⟩
        cases i with
        | zero => rfl
        | succ i' => exact absurd (h2 0 (by omega)) (by simp [h])
    | false =>
      constructor
      · intro hi; cases hi
      · rintro ⟨h1, h2⟩
        rw [List.drop_nil] at h1
        rw [h] at h1
        cases h1
  | cons c t ih =>
    intro i
    show (if startsWithL sep (c :: t) then some 0 else (findSub sep t).map (· + 1)) = some i ↔ _
    cases h : startsWithL sep (c :: t) with
    | true =>
      constructor
      · intro hi
        have h0 : i = 0 := by simpa using (Option.some.inj hi).symm
        subst h0
        exact ⟨by simpa using h, fun p hp => absurd hp (by omega)⟩
      · rintro ⟨h1, h2⟩
        cases i with
        | zero => rfl
        | succ i' => exact absurd (h2 0 (by omega)) (by simp [h])
    | false =>
      constructor
      · intro hi
        cases hf : findSub sep t with
        | none => rw [hf] at hi; cases hi
        | some j =>
          rw [hf] at hi
          have hij : i = j + 1 := by simpa using (Option.some.inj hi).symm
          subst hij
          obtain ⟨h1, h2⟩ := (ih j).mp hf
          refine ⟨by simpa using h1, ?_⟩
          intro p hp
          cases p with
          | zero => simpa using h
          | succ p' => simpa using h2 p' (by omega)
      · rintro ⟨h1, h2⟩
        cases i with
        | zero =>
          rw [List.drop_zero] at h1
          rw [h] at h1
          cases h1
        | succ i' =>
          have h1' : startsWithL sep (t.drop i') = true := by simpa using h1
          have h2' : ∀ p, p < i' → startsWithL sep (t.drop p) = false := by
            intro p hp
            simpa using h2 (p + 1) (by omega)
          rw [(ih i').mpr ⟨h1', h2'⟩]
          rfl

theorem findSub_eq_none_iff (sep : List Char) : ∀ s : List Char,
    findSub sep s = none ↔ ∀ p, startsWithL sep (s.drop p) = false := by
  intro s
  induction s with
  | nil =>
    show (if startsWithL sep [] then some 0 else none) = none ↔ _
    cases h : startsWithL sep [] with
    | true =>
      constructor
      · intro hi; cases hi
      · intro hall
        have := hall 0
        rw [List.drop_nil] at this
        rw [h] at this
        cases this
    | false =>
      constructor
      · intro _ p
        rw [List.drop_nil]
        exact h
      · intro _; rfl
  | cons c t ih =>
    show (if startsWithL sep (c :: t) then some 0 else (findSub sep t).map (· + 1)) = none ↔ _
    cases h : startsWithL sep (c :: t) with
    | true =>
      constructor
      · intro hi; cases hi
      · intro hall
        have := hall 0
        rw [List.drop_zero] at this
        rw [h] at this
        cases this
    | false =>
      constructor
      · intro hi p
        have hf : findSub sep t = none := by
          cases hf : findSub sep t with
          | none => rfl
          | some j => rw [hf] at hi; cases hi
        cases p with
        | zero => simpa using h
        | succ p' => simpa using (ih.mp hf) p'
      · intro hall
        have hf : findSub sep t = none := ih.mpr (fun p => by simpa using hall (p + 1))
        rw [hf]
        rfl

theorem takeUntil_comp (v : List Char) :
    (findSub jsonFenceChars v = none →
      takeUntilSub fenceChars (takeUntilSub jsonFenceChars v) = takeUntilSub fenceChars v) ∧
    (∀ k j, findSub jsonFenceChars v = some k → findSub fenceChars v = some j →
      (j + fenceChars.length ≤ k →
        takeUntilSub fenceChars (takeUntilSub jsonFenceChars v) = v.take j) ∧
      (k < j + fenceChars.length →
        takeUntilSub fenceChars (takeUntilSub jsonFenceChars v) = v.take k)) ∧
    (∀ k, findSub jsonFenceChars v = some k → findSub fenceChars v ≠ none) := by
  have hlen3 : fenceChars.length = 3 := rfl
  refine ⟨?_, ?_, ?_⟩
  · intro hn
    rw [show takeUntilSub jsonFenceChars v = v from by rw [takeUntilSub, hn]]
  · intro k j hk hj
    obtain ⟨hk1, _⟩ := (findSub_eq_some_iff _ _ _).mp hk
    obtain ⟨hj1, hj2⟩ := (findSub_eq_some_iff _ _ _).mp hj
    have hfk : startsWithL fenceChars (v.drop k) = true :=
      startsWithL_trans (by decide) hk1
    have hjk : j ≤ k := by
      by_contra hlt
      have := hj2 k (by omega)
      rw [this] at hfk
      cases hfk
    have hjson : takeUntilSub jsonFenceChars v = v.take k := by rw [takeUntilSub, hk]
    constructor
    · intro hsep3
      have hocc : startsWithL fenceChars ((v.take k).drop j) = true := by
        rw [List.drop_take]
        exact startsWithL_take hj1 (by omega)
      have hmin : ∀ p, p < j → startsWithL fenceChars ((v.take k).drop p) = false := by
        intro p hp
        cases hcase : startsWithL fenceChars ((v.take k).drop p) with
        | false => rfl
        | true =>
          rw [List.drop_take] at hcase
          have := startsWithL_of_take hcase
          rw [hj2 p hp] at this
          cases this
      have hsome : findSub fenceChars (v.take k) = some j :=
        (findSub_eq_some_iff _ _ _).mpr ⟨hocc, hmin⟩
      rw [hjson, takeUntilSub, hsome]
      dsimp only
      rw [List.take_take, min_eq_left hjk]
    · intro hlt
      have hnone : findSub fenceChars (v.take k) = none := by
        refine (findSub_eq_none_iff _ _).mpr ?_
        intro p
        cases hcase : startsWithL fenceChars ((v.take k).drop p) with
        | false => rfl
        | true =>
          exfalso
          have hbound := occurrence_bound (by omega) hcase
          rw [List.length_take] at hbound
          have hpj : p < j := by omega
          rw [List.drop_take] at hcase
          have := startsWithL_of_take hcase
          rw [hj2 p hpj] at this
          cases this
      rw [hjson, takeUntilSub, hnone]
  · intro k hk hnone
    obtain ⟨hk1, _⟩ := (findSub_eq_some_iff _ _ _).mp hk
    have hfk : startsWithL fenceChars (v.drop k) = true :=
      startsWithL_trans (by decide) hk1
    have := (findSub_eq_none_iff _ _).mp hnone k
    rw [this] at hfk
    cases hfk

/-- Counterexample to C6 as stated: on the response `"```jsonA````json"`
the code parses `"A`"` — the `[1]` segment of the ```json split, cut at
its first following ``` — while the content between the first fence and
its closing ``` fence is `"A"`: the closing fence overlaps the second
```json occurrence, so the stray backtick is kept and parsed. -/
theorem c6_counterexample :
    unwrapContent ("```jsonA````json".data) = "A`".data ∧
    specFenceUnwrap ("```jsonA````json".data) = "A".data ∧
    "A`".data ≠ "A".data := by
  refine ⟨?_, by decide, by decide⟩
  rw [unwrap_eq]
  decide

/-- C6 amended: with no ```json marker the whole (trimmed) response is
parsed, as claimed. With the marker first at `i`, the parsed text is a
prefix of the remainder after the fence: exactly up to the closing ```
fence (to the end when no ``` follows), as the spec claims — except
when that closing fence overlaps a following ```json occurrence (the
split consumes non-overlapping separators), in which case the parsed
text extends to the start of that occurrence instead. -/
theorem c6_amended_unwrap_rule (content : List Char) :
    (containsSubAux jsonFenceChars content = false → unwrapContent content = content) ∧
    (∀ i, findSub jsonFenceChars content = some i →
      (findSub fenceChars (content.drop (i + jsonFenceChars.length)) = none →
        unwrapContent content = content.drop (i + jsonFenceChars.length)) ∧
      (∀ j, findSub fenceChars (content.drop (i + jsonFenceChars.length)) = some j →
        ((∀ k, findSub jsonFenceChars (content.drop (i + jsonFenceChars.length)) = some k →
            j + fenceChars.length ≤ k) →
          unwrapContent content = (content.drop (i + jsonFenceChars.length)).take j) ∧
        (∀ k, findSub jsonFenceChars (content.drop (i + jsonFenceChars.length)) = some k →
          k < j + fenceChars.length →
          unwrapContent content = (content.drop (i + jsonFenceChars.length)).take k))) := by
  constructor
  · intro hno
    simp [unwrapContent, hno]
  · intro i hi
    have hrw : unwrapContent content =
        takeUntilSub fenceChars
          (takeUntilSub jsonFenceChars (content.drop (i + jsonFenceChars.length))) := by
      rw [unwrap_eq, hi]
    set v := content.drop (i + jsonFenceChars.length) with hv
    constructor
    · intro hfn
      have hjn : findSub jsonFenceChars v = none := by
        cases hjc : findSub jsonFenceChars v with
        | none => rfl
        | some k => exact absurd hfn ((takeUntil_comp v).2.2 k hjc)
      rw [hrw, show takeUntilSub jsonFenceChars v = v from by rw [takeUntilSub, hjn],
        takeUntilSub, hfn]
    · intro j hj
      constructor
      · intro hA
        cases hjc : findSub jsonFenceChars v with
        | none =>
          rw [hrw, show takeUntilSub jsonFenceChars v = v from by rw [takeUntilSub, hjc],
            takeUntilSub, hj]
        | some k =>
          exact hrw.trans (((takeUntil_comp v).2.1 k j hjc hj).1 (hA k hjc))
      · intro k hjc hlt
        exact hrw.trans (((takeUntil_comp v).2.1 k j hjc hj).2 hlt)

/-- Witness for the amended C6 on the response `"x```json y``` z"`: the fence
opens at 1, the closing ``` does not overlap any further ```json, and
exactly the two characters between the fences are parsed. -/
theorem c6_witness :
    unwrapContent ("x```json y``` z".data) =
      (("x```json y``` z".data).drop (1 + jsonFenceChars.length)).take 2 := by
  have hjn : findSub jsonFenceChars
      (("x```json y``` z".data).drop (1 + jsonFenceChars.length)) = none := by decide
  exact (((c6_amended_unwrap_rule ("x```json y``` z".data)).2 1 (by decide)).2 2
    (by decide)).1 (fun k hk => Option.noConfusion (hjn.symm.trans hk))

end UberCheats
